import Mathlib

/-!
Shallow embedding of the instance reconciliation manager of
`jupyterlab_tensorboard_pro` (`src/manager.ts`, class `TensorboardManager`)
and its directory formatter, together with proofs about the claims of the
specification.

Conventions of the embedding:
* `Tensorboard.IModel` becomes the structure `Model`; JSON deep equality
  (`JSONExt.deepEqual`) on arrays of models becomes decidable equality of
  `List Model`, since all model fields are primitive.
* A `Tensorboard.ITensorboard` object held in the manager's `_tensorboards`
  set becomes a `Handle`: an `id` distinguishes distinct objects that wrap
  models with the same name (JS `Set` identity is reference identity).
* The mutable fields `_models`, `_tensorboards`, `_isReady` become the
  record `ManagerState`; each operation is a function from the old state
  (plus the outcome of any backend call it performs) to the new state,
  an ordered trace of observable events, and the settled outcome of the
  returned promise.
* Backend calls (`Tensorboard.listRunning`, `Tensorboard.shutdown`,
  `Tensorboard.startNew`, declared in `src/tensorboard.ts` and used here as
  external collaborators) are modelled by their settled results, passed in
  as parameters of type `Except BackendError _`.  A JS promise chain
  `p.then(f)` with no rejection handler runs `f` only when `p` fulfills and
  otherwise propagates the rejection; the embedding mirrors this by matching
  on the `Except` value.
* Signal emissions (`_runningChanged.emit`), remote-call issuance and handle
  disposal are recorded in order in the event trace, so temporal claims
  ("the event fires before the remote call is issued") become statements
  about positions in the trace.
-/

/-- A backend / transport failure (`ServerConnection` error). -/
structure BackendError where
  message : String
deriving DecidableEq, Repr

/-- Settled promise outcomes can be compared, so that counterexamples can be
checked by evaluation. -/
instance {ε α : Type} [DecidableEq ε] [DecidableEq α] :
    DecidableEq (Except ε α) := fun a b =>
  match a, b with
  | .error e, .error e' => decidable_of_iff (e = e') (by simp)
  | .ok x, .ok y => decidable_of_iff (x = y) (by simp)
  | .error _, .ok _ => isFalse (by simp)
  | .ok _, .error _ => isFalse (by simp)

/-- `Tensorboard.IModel`: the value object describing one running instance. -/
structure Model where
  name : String
  logdir : String
  reload_interval : Nat
  enable_multi_log : Bool
  additional_args : String
deriving DecidableEq, Repr

/-- A `Tensorboard.ITensorboard` object as held in the `_tensorboards` set.
`id` stands for JS reference identity: two `startNew` calls produce two
distinct objects even when their models coincide. -/
structure Handle where
  id : Nat
  model : Model
deriving DecidableEq, Repr

/-- `tensorboard.name` delegates to the wrapped model's name. -/
def Handle.name (h : Handle) : String :=
  h.model.name

/-- The mutable state of a `TensorboardManager`:
`_models`, `_tensorboards` (a JS `Set`, kept in insertion order) and
`_isReady`. -/
structure ManagerState where
  models : List Model
  tensorboards : List Handle
  isReady : Bool
deriving DecidableEq, Repr

/-- Observable events of one operation, in order:
`emit s` is `_runningChanged.emit s`; `remoteShutdown n` is the issuance of
`Tensorboard.shutdown(n, serverSettings)`; `dispose h` is `h.dispose()`
followed by removal from `_tensorboards`. -/
inductive Event where
  | emit (snapshot : List Model)
  | remoteShutdown (name : String)
  | dispose (h : Handle)
deriving DecidableEq, Repr

/-- Whether an event is a change-signal emission. -/
def Event.isEmit : Event → Bool
  | .emit _ => true
  | _ => false

/-- The name of a remote-shutdown issuance event, if it is one. -/
def Event.remoteName? : Event → Option String
  | .remoteShutdown n => some n
  | _ => none

/-- The change-signal emissions of a trace. -/
def emitsOf (evs : List Event) : List Event :=
  evs.filter Event.isEmit

/-- JS `Set.prototype.add`: insert at the end unless already present. -/
def setAdd (l : List Handle) (h : Handle) : List Handle :=
  if h ∈ l then l else l ++ [h]

/-- Lumino's `ArrayExt.findFirstIndex`: index of the first element satisfying
the predicate, or `-1` (here `none`) when there is none. -/
def findFirstIndex (p : Model → Bool) : List Model → Option Nat
  | [] => none
  | m :: rest => if p m then some 0 else (findFirstIndex p rest).map (· + 1)

/-- `TensorboardManager._refreshRunning`, success path (the `.then` handler
applied to the list fulfilled by `Tensorboard.listRunning`): set `_isReady`;
if the fetched list is deep-equal to `_models` do nothing; otherwise dispose
and drop every handle whose name is absent from the fetched list, replace
`_models` by a copy of the fetched list, and emit the change signal. -/
def refreshRunningOk (fetched : List Model) (s : ManagerState) :
    ManagerState × List Event :=
  if fetched = s.models then
    ({ s with isReady := true }, [])
  else
    let names := fetched.map Model.name
    let toRemove := s.tensorboards.filter (fun t => ¬ names.contains t.name)
    let kept := s.tensorboards.filter (fun t => names.contains t.name)
    ({ models := fetched, tensorboards := kept, isReady := true },
      toRemove.map Event.dispose ++ [Event.emit fetched])

/-- `TensorboardManager._refreshRunning`: when `Tensorboard.listRunning`
rejects, the `.then` handler is skipped and the rejection propagates to the
caller with no state change; otherwise the success path runs and the promise
fulfills. -/
def refreshRunning (fetch : Except BackendError (List Model))
    (s : ManagerState) :
    ManagerState × List Event × Except BackendError Unit :=
  match fetch with
  | .error e => (s, [], .error e)
  | .ok fetched =>
      let (s', evs) := refreshRunningOk fetched s
      (s', evs, .ok ())

/-- `TensorboardManager._onTerminated`: remove the model with the given name
from `_models` (first match, as `ArrayExt.findFirstIndex` + `splice`) and
emit; the handle itself is not touched. -/
def onTerminated (name : String) (s : ManagerState) :
    ManagerState × List Event :=
  match findFirstIndex (fun m => m.name == name) s.models with
  | none => (s, [])
  | some i =>
      let models' := s.models.eraseIdx i
      ({ s with models := models' }, [Event.emit models'])

/-- `TensorboardManager._onStarted`: add the handle to `_tensorboards`;
if no model with its name is in `_models`, push its model and emit.
(The `terminated.connect` wiring is modelled by `onTerminated` separately.) -/
def onStarted (tb : Handle) (s : ManagerState) : ManagerState × List Event :=
  let s1 := { s with tensorboards := setAdd s.tensorboards tb }
  match findFirstIndex (fun m => m.name == tb.name) s1.models with
  | none =>
      let models' := s1.models ++ [tb.model]
      ({ s1 with models := models' }, [Event.emit models'])
  | some _ => (s1, [])

/-- `TensorboardManager.startNew`: await `Tensorboard.startNew` (rejection
propagates, nothing happens locally), then run `_onStarted` on the returned
handle and fulfill with it. -/
def startNew (result : Except BackendError Handle) (s : ManagerState) :
    ManagerState × List Event × Except BackendError Handle :=
  match result with
  | .error e => (s, [], .error e)
  | .ok tb =>
      let (s', evs) := onStarted tb s
      (s', evs, .ok tb)

/-- `TensorboardManager.shutdown`: if no model has the given name, fulfill at
once (no event, no remote call).  Otherwise splice the model out, emit the
new snapshot, issue `Tensorboard.shutdown`; only when the remote call
fulfills does the `.then` handler dispose and drop every handle with that
name — a rejection skips the handler and propagates to the caller. -/
def shutdown (name : String) (remote : Except BackendError Unit)
    (s : ManagerState) :
    ManagerState × List Event × Except BackendError Unit :=
  match findFirstIndex (fun m => m.name == name) s.models with
  | none => (s, [], .ok ())
  | some i =>
      let models' := s.models.eraseIdx i
      let s1 := { s with models := models' }
      let evs := [Event.emit models', Event.remoteShutdown name]
      match remote with
      | .error e => (s1, evs, .error e)
      | .ok _ =>
          let toRemove := s1.tensorboards.filter (fun t => t.name = name)
          let kept := s1.tensorboards.filter (fun t => ¬ t.name = name)
          ({ s1 with tensorboards := kept },
            evs ++ toRemove.map Event.dispose, .ok ())

/-- The settle phase of `TensorboardManager.shutdownAll`: the `.then` handler
of each per-model `Tensorboard.shutdown` call disposes and drops every handle
currently in `_tensorboards` (no name filter in the source); a rejected call
skips its handler.  Handlers are processed in list order (a determinization
of promise settle order; handlers emit no change signal, so the properties
proved below do not depend on this order). -/
def shutdownAllSettle (remote : String → Except BackendError Unit)
    (captured : List Model) (s : ManagerState) : ManagerState × List Event :=
  match captured with
  | [] => (s, [])
  | m :: rest =>
      match remote m.name with
      | .ok _ =>
          let evs := s.tensorboards.map Event.dispose
          let (s', evs') :=
            shutdownAllSettle remote rest { s with tensorboards := [] }
          (s', evs ++ evs')
      | .error _ => shutdownAllSettle remote rest s

/-- The result of the `Promise.all` in `shutdownAll`: rejects with the first
(in list order) rejection among the per-model remote calls, otherwise
fulfills. -/
def shutdownAllResult (remote : String → Except BackendError Unit) :
    List Model → Except BackendError Unit
  | [] => .ok ()
  | m :: rest =>
      match remote m.name with
      | .error e => .error e
      | .ok _ => shutdownAllResult remote rest

/-- `TensorboardManager.shutdownAll`: capture `_models`; when non-empty,
replace `_models` by `[]` and emit `[]`; run `_refreshRunning` (its rejection
propagates and nothing further happens); then issue one
`Tensorboard.shutdown` per captured model (all issued by the `map` before any
handler runs) and process the settle handlers. -/
def shutdownAll (fetch : Except BackendError (List Model))
    (remote : String → Except BackendError Unit) (s : ManagerState) :
    ManagerState × List Event × Except BackendError Unit :=
  let captured := s.models
  let (s1, evs0) :=
    if captured.length > 0 then
      ({ s with models := [] }, [Event.emit []])
    else (s, [])
  let (s2, evs1, r1) := refreshRunning fetch s1
  match r1 with
  | .error e => (s2, evs0 ++ evs1, .error e)
  | .ok _ =>
      let issued := captured.map (fun m => Event.remoteShutdown m.name)
      let (s3, evs2) := shutdownAllSettle remote captured s2
      (s3, evs0 ++ evs1 ++ issued ++ evs2, shutdownAllResult remote captured)

/-- JS `String.prototype.replace(pat, '')` for a non-regex pattern: delete
the leftmost occurrence of `pat`, if any (over character lists). -/
def dropFirstOcc (pat : List Char) : List Char → List Char
  | [] => []
  | c :: rest =>
      if pat.isPrefixOf (c :: rest) then (c :: rest).drop pat.length
      else c :: dropFirstOcc pat rest

/-- JS `String.prototype.replace(/^\//, '')`: delete one leading slash. -/
def stripLeadingSlash : List Char → List Char
  | [] => []
  | c :: rest => if c = '/' then rest else c :: rest

/-- The reserved sentinel returned for the workspace root itself. -/
def workspaceRootSentinel : List Char :=
  "<workspace_root>".data

/-- The single-directory branch of `TensorboardManager.formatDir` (source
lines 101–112), over character lists.  The guard
`pageRoot && dir.indexOf(pageRoot) === 0` is JS truthiness of the optional
root (present and non-empty) conjoined with the leftmost occurrence of
`pageRoot` in `dir` being at index 0, i.e. `pageRoot` a prefix of `dir`;
under it, `dir.replace(pageRoot, '')` deletes that leftmost occurrence. -/
def formatDirBase (pageRoot : Option (List Char)) (dir : List Char) :
    List Char :=
  match pageRoot with
  | none => dir
  | some pr =>
      if pr ≠ [] ∧ pr.isPrefixOf dir then
        let replaceResult := dropFirstOcc pr dir
        let replaceResult' := if replaceResult = [] then ['/'] else replaceResult
        let formatted := stripLeadingSlash replaceResult'
        if formatted = [] then workspaceRootSentinel else formatted
      else dir

/-- `TensorboardManager.formatDir`: if `dir` contains a comma, split on
commas and rejoin the per-segment results; a segment containing a colon is
split on colons, its first part kept as the label and the second part
formatted.  The source's recursive `this.formatDir` calls inside the
comma branch receive only comma-free strings (segments of `split(',')`, or a
colon part of such a segment), on which `formatDir` coincides with its
comma-free branch, so the embedding calls `formatDirBase` there (the
coincidence is `formatDir_eq_base` below). -/
def formatDir (pageRoot : Option (List Char)) (dir : List Char) : List Char :=
  if ',' ∈ dir then
    List.intercalate [','] ((dir.splitOn ',').map (fun d =>
      if ':' ∈ d then
        (d.splitOn ':').headD [] ++ [':'] ++
          formatDirBase pageRoot (((d.splitOn ':').drop 1).headD [])
      else formatDirBase pageRoot d))
  else formatDirBase pageRoot dir

/-- On a comma-free string, `formatDir` is its single-directory branch. -/
theorem formatDir_eq_base (pageRoot : Option (List Char)) (dir : List Char)
    (h : ',' ∉ dir) : formatDir pageRoot dir = formatDirBase pageRoot dir := by
  simp [formatDir, h]

/-! Concrete fixtures used by witnesses and counterexamples. -/

/-- A concrete running instance named `tb1`. -/
def mTb1 : Model :=
  { name := "tb1", logdir := "/logs/a", reload_interval := 0,
    enable_multi_log := false, additional_args := "" }

/-- A concrete running instance named `tb2`. -/
def mTb2 : Model :=
  { name := "tb2", logdir := "/logs/b", reload_interval := 0,
    enable_multi_log := false, additional_args := "" }

/-- A locally created handle wrapping `mTb1`. -/
def hTb1 : Handle := { id := 0, model := mTb1 }

/-- A second, distinct handle wrapping the same model `mTb1`. -/
def hTb1' : Handle := { id := 1, model := mTb1 }

/-- A manager state holding `mTb1` with its local handle `hTb1`. -/
def sOne : ManagerState :=
  { models := [mTb1], tensorboards := [hTb1], isReady := true }

/-- The empty manager state right after construction. -/
def sEmpty : ManagerState :=
  { models := [], tensorboards := [], isReady := false }

/-- A concrete backend failure. -/
def bErr : BackendError := { message := "backend unreachable" }

/-! Helper lemmas about the embedded primitives. -/

/-- `findFirstIndex` misses exactly when no element has the sought name. -/
theorem findFirstIndex_eq_none_iff (n : String) (l : List Model) :
    findFirstIndex (fun m => m.name == n) l = none ↔ n ∉ l.map Model.name := by
  induction l with
  | nil => simp [findFirstIndex]
  | cons m rest ih =>
      by_cases h : m.name = n
      · simp [findFirstIndex, h]
      · have h' : ¬ n = m.name := fun he => h he.symm
        simp [findFirstIndex, h, h', Option.map_eq_none', ih]

/-- When the sought name is present, `findFirstIndex` returns an index. -/
theorem findFirstIndex_isSome_of_mem {n : String} {l : List Model}
    (h : n ∈ l.map Model.name) :
    ∃ i, findFirstIndex (fun m => m.name == n) l = some i := by
  rcases hx : findFirstIndex (fun m => m.name == n) l with _ | i
  · exact absurd ((findFirstIndex_eq_none_iff n l).mp hx) (not_not_intro h)
  · exact ⟨i, rfl⟩

/-- Erasing the first model with the sought name removes the name entirely,
when names are unrepeated. -/
theorem not_mem_map_eraseIdx_findFirstIndex (n : String) :
    ∀ (l : List Model), (l.map Model.name).Nodup →
      ∀ i, findFirstIndex (fun m => m.name == n) l = some i →
        n ∉ (l.eraseIdx i).map Model.name := by
  intro l
  induction l with
  | nil => intro _ i hi; simp [findFirstIndex] at hi
  | cons m rest ih =>
      intro hnd i hi
      by_cases h : m.name = n
      · simp [findFirstIndex, h] at hi
        subst hi
        simpa [List.eraseIdx, h] using (List.nodup_cons.mp hnd).1
      · simp [findFirstIndex, h] at hi
        rcases hi with ⟨j, hj, hij⟩
        subst hij
        simp only [List.eraseIdx, List.map_cons, List.mem_cons]
        push_neg
        exact ⟨fun he => h he.symm,
          ih (List.nodup_cons.mp hnd).2 j hj⟩

/-- The handle passed to `setAdd` is in the result. -/
theorem mem_setAdd_self (l : List Handle) (h : Handle) : h ∈ setAdd l h := by
  by_cases hm : h ∈ l <;> simp [setAdd, hm]

/-- `setAdd` keeps every previous member. -/
theorem mem_setAdd_of_mem {l : List Handle} {h' : Handle} (h : Handle)
    (hm : h' ∈ l) : h' ∈ setAdd l h := by
  by_cases hh : h ∈ l <;> simp [setAdd, hh, hm]

/-! C1 -/

/-- C1: a `refreshRunning` pass over a fulfilled authoritative list emits the
change signal iff the fetched list is not deep-equal to the cached `models`;
when they are deep-equal, `models`, the handle set and the subscribers (the
event trace) are untouched. -/
theorem refreshRunning_emits_iff_changed (fetched : List Model)
    (s : ManagerState) :
    (emitsOf (refreshRunningOk fetched s).2 ≠ [] ↔ fetched ≠ s.models) ∧
    (fetched = s.models →
      (refreshRunningOk fetched s).1.models = s.models ∧
      (refreshRunningOk fetched s).1.tensorboards = s.tensorboards ∧
      (refreshRunningOk fetched s).2 = []) := by
  by_cases heq : fetched = s.models
  · subst heq
    simp [refreshRunningOk, emitsOf]
  · refine ⟨?_, fun h => absurd h heq⟩
    simp only [refreshRunningOk, if_neg heq]
    simp [emitsOf, List.filter_append, List.filter_map, Event.isEmit, heq,
      Function.comp]

/-- Witness for C1 at a concrete changed list. -/
theorem refreshRunning_emits_iff_changed_witness :
    emitsOf (refreshRunningOk [mTb1] sEmpty).2 ≠ [] :=
  (refreshRunning_emits_iff_changed [mTb1] sEmpty).1.mpr (by decide)

/-! C6 -/

/-- C6: when `Tensorboard.listRunning` rejects, `refreshRunning` leaves
`models` and the handle set exactly as they were, emits nothing, and
propagates the failure to its caller. -/
theorem refreshRunning_error_no_partial_update (e : BackendError)
    (s : ManagerState) :
    (refreshRunning (.error e) s).1.models = s.models ∧
    (refreshRunning (.error e) s).1.tensorboards = s.tensorboards ∧
    (refreshRunning (.error e) s).2.1 = [] ∧
    (refreshRunning (.error e) s).2.2 = .error e :=
  ⟨rfl, rfl, rfl, rfl⟩

/-! C2 -/

/-- C2 counterexample: processing a handle's termination notification
(`_onTerminated "tb1"` on a state holding model `tb1` and its handle)
removes the model but leaves the handle in the handle set, so a handle whose
name is absent from `models` remains — contradicting the claimed invariant. -/
theorem onTerminated_leaves_stale_handle :
    hTb1 ∈ (onTerminated "tb1" sOne).1.tensorboards ∧
    hTb1.name ∉ (onTerminated "tb1" sOne).1.models.map Model.name := by
  decide

/-- C2 amended: after a `refreshRunning` pass that observes a changed
authoritative list, every handle remaining in the handle set has a name
present in the new `models`, and every previously held handle whose name is
absent from the fetched list has its disposal recorded in the same pass's
trace (atomically with the `models` replacement); `_onTerminated`, by
contrast, removes only the model and leaves the handle in the set until a
later refresh disposes it. -/
theorem refresh_restores_handle_invariant (fetched : List Model)
    (s : ManagerState) (hne : fetched ≠ s.models) :
    (∀ h ∈ (refreshRunningOk fetched s).1.tensorboards,
        h.name ∈ (refreshRunningOk fetched s).1.models.map Model.name) ∧
    (∀ h ∈ s.tensorboards, h.name ∉ fetched.map Model.name →
        Event.dispose h ∈ (refreshRunningOk fetched s).2) := by
  constructor
  · intro h hm
    simp only [refreshRunningOk, if_neg hne, List.mem_filter] at hm
    simpa [refreshRunningOk, if_neg hne] using hm.2
  · intro h hm habs
    have hx : ∀ x ∈ fetched, ¬ x.name = h.name := fun x hxm he =>
      habs (List.mem_map.mpr ⟨x, hxm, he⟩)
    simp [refreshRunningOk, if_neg hne, List.mem_filter, hm]
    exact hx

/-- Witness for the amended C2: after a concrete refresh that keeps `tb1`
and adds `tb2`, the surviving handle's name is in the new `models`. -/
theorem refresh_restores_handle_invariant_witness :
    hTb1.name ∈ (refreshRunningOk [mTb1, mTb2] sOne).1.models.map Model.name :=
  (refresh_restores_handle_invariant [mTb1, mTb2] sOne (by decide)).1
    hTb1 (by decide)

/-! C3 -/

/-- C3: for a name present in `models` (names unrepeated, per the spec
invariant), `shutdown` records the change emission — whose snapshot already
lacks the name and equals the post-call `models` — as the first event of its
trace, strictly before the remote shutdown issuance, and this holds whatever
the remote call later settles to. -/
theorem shutdown_optimistic_removal_before_remote (name : String)
    (remote : Except BackendError Unit) (s : ManagerState)
    (hmem : name ∈ s.models.map Model.name)
    (hnd : (s.models.map Model.name).Nodup) :
    ∃ ms rest, (shutdown name remote s).2.1 =
        Event.emit ms :: Event.remoteShutdown name :: rest ∧
      name ∉ ms.map Model.name ∧
      (shutdown name remote s).1.models = ms := by
  obtain ⟨i, hi⟩ := findFirstIndex_isSome_of_mem hmem
  have hnot := not_mem_map_eraseIdx_findFirstIndex name s.models hnd i hi
  cases remote with
  | error e =>
      exact ⟨s.models.eraseIdx i, [], by simp [shutdown, hi], hnot, by
        simp [shutdown, hi]⟩
  | ok u =>
      refine ⟨s.models.eraseIdx i,
        (s.tensorboards.filter (fun t => t.name = name)).map Event.dispose,
        by simp [shutdown, hi], hnot, by simp [shutdown, hi]⟩

/-- Witness for C3: shutting down `tb1` in the one-instance state. -/
theorem shutdown_optimistic_removal_before_remote_witness :
    ∃ ms rest, (shutdown "tb1" (.ok ()) sOne).2.1 =
        Event.emit ms :: Event.remoteShutdown "tb1" :: rest ∧
      "tb1" ∉ ms.map Model.name ∧
      (shutdown "tb1" (.ok ()) sOne).1.models = ms :=
  shutdown_optimistic_removal_before_remote "tb1" (.ok ()) sOne
    (by decide) (by decide)

/-! C4 -/

/-- C4 counterexample: with model `tb1` present and its handle held, a
rejected remote shutdown makes `shutdown "tb1"` reject with the same backend
failure — so the failure does propagate to the caller — and the handle named
`tb1` is left in the handle set, not disposed. -/
theorem shutdown_error_propagates :
    (shutdown "tb1" (.error bErr) sOne).2.2 = .error bErr ∧
    hTb1 ∈ (shutdown "tb1" (.error bErr) sOne).1.tensorboards := by
  decide

/-- C4 amended: for a name present in `models`, when the remote shutdown
call fulfills, every locally-held handle with that name is removed from the
handle set once it settles; when the remote call rejects, the rejection
propagates to `shutdown`'s caller and the handle set is left untouched (the
optimistic `models` removal having already happened). -/
theorem shutdown_settle_disposal (name : String)
    (remote : Except BackendError Unit) (s : ManagerState)
    (hmem : name ∈ s.models.map Model.name) :
    (remote = .ok () → ∀ h ∈ (shutdown name remote s).1.tensorboards,
        h.name ≠ name) ∧
    (∀ e, remote = .error e → (shutdown name remote s).2.2 = .error e ∧
        (shutdown name remote s).1.tensorboards = s.tensorboards) := by
  obtain ⟨i, hi⟩ := findFirstIndex_isSome_of_mem hmem
  constructor
  · rintro rfl h hm
    simp [shutdown, hi, List.mem_filter] at hm
    exact fun he => hm.2 he
  · rintro e rfl
    exact ⟨by simp [shutdown, hi], by simp [shutdown, hi]⟩

/-- Witness for the amended C4: a concrete rejected remote shutdown of `tb1`
propagates the failure and leaves the handle set untouched. -/
theorem shutdown_settle_disposal_witness :
    (shutdown "tb1" (.error bErr) sOne).2.2 = .error bErr ∧
    (shutdown "tb1" (.error bErr) sOne).1.tensorboards = sOne.tensorboards :=
  (shutdown_settle_disposal "tb1" (.error bErr) sOne (by decide)).2 bErr rfl

/-! C7 -/

/-- C7: after a successful `startNew` the returned handle is in the handle
set; if its name was absent from `models` the model is appended and exactly
the change event for the new snapshot fires; if its name was present,
`models` is unchanged (so still holds exactly one entry for that name when
it did before) and no event fires. -/
theorem startNew_success_updates (tb : Handle) (s : ManagerState) :
    tb ∈ (startNew (.ok tb) s).1.tensorboards ∧
    (tb.name ∉ s.models.map Model.name →
      (startNew (.ok tb) s).1.models = s.models ++ [tb.model] ∧
      (startNew (.ok tb) s).2.1 = [Event.emit (s.models ++ [tb.model])]) ∧
    (tb.name ∈ s.models.map Model.name →
      (startNew (.ok tb) s).1.models = s.models ∧
      (startNew (.ok tb) s).2.1 = [] ∧
      ((s.models.map Model.name).count tb.name = 1 →
        ((startNew (.ok tb) s).1.models.map Model.name).count tb.name = 1)) := by
  refine ⟨?_, ?_, ?_⟩
  · rcases hf : findFirstIndex (fun m => m.name == tb.name) s.models with _ | i
    · simp [startNew, onStarted, hf]
      exact mem_setAdd_self _ _
    · simp [startNew, onStarted, hf]
      exact mem_setAdd_self _ _
  · intro habs
    have hf : findFirstIndex (fun m => m.name == tb.name) s.models = none :=
      (findFirstIndex_eq_none_iff tb.name s.models).mpr habs
    exact ⟨by simp [startNew, onStarted, hf], by simp [startNew, onStarted, hf]⟩
  · intro hmem
    obtain ⟨i, hf⟩ := findFirstIndex_isSome_of_mem hmem
    refine ⟨by simp [startNew, onStarted, hf], by simp [startNew, onStarted, hf], ?_⟩
    intro hcount
    simpa [startNew, onStarted, hf] using hcount

/-- Witness for C7: starting `tb1` on the empty manager appends its model. -/
theorem startNew_success_updates_witness :
    (startNew (.ok hTb1) sEmpty).1.models = sEmpty.models ++ [hTb1.model] ∧
    (startNew (.ok hTb1) sEmpty).2.1 =
      [Event.emit (sEmpty.models ++ [hTb1.model])] :=
  (startNew_success_updates hTb1 sEmpty).2.1 (by decide)

/-! C10 -/

/-- C10: two successful `startNew` calls whose backend results are distinct
handles sharing one (previously absent) name leave both handles in the
handle set while `models` holds exactly one entry for that name. -/
theorem startNew_duplicate_handles (tb1 tb2 : Handle) (s : ManagerState)
    (hne : tb1 ≠ tb2) (hname : tb1.name = tb2.name)
    (habs : tb1.name ∉ s.models.map Model.name) :
    tb1 ∈ (startNew (.ok tb2) (startNew (.ok tb1) s).1).1.tensorboards ∧
    tb2 ∈ (startNew (.ok tb2) (startNew (.ok tb1) s).1).1.tensorboards ∧
    (((startNew (.ok tb2) (startNew (.ok tb1) s).1).1.models.map
        Model.name).count tb1.name = 1) := by
  have hf1 : findFirstIndex (fun m => m.name == tb1.name) s.models = none :=
    (findFirstIndex_eq_none_iff tb1.name s.models).mpr habs
  have hstep1 : (startNew (.ok tb1) s).1 =
      { models := s.models ++ [tb1.model],
        tensorboards := setAdd s.tensorboards tb1, isReady := s.isReady } := by
    simp [startNew, onStarted, hf1]
  rw [hstep1]
  have hmem2 : tb2.name ∈ (s.models ++ [tb1.model]).map Model.name := by
    rw [← hname]
    simp [Handle.name]
  obtain ⟨i, hf2⟩ := findFirstIndex_isSome_of_mem hmem2
  have hstep2 : (startNew (.ok tb2)
      { models := s.models ++ [tb1.model],
        tensorboards := setAdd s.tensorboards tb1,
        isReady := s.isReady : ManagerState }).1 =
      { models := s.models ++ [tb1.model],
        tensorboards := setAdd (setAdd s.tensorboards tb1) tb2,
        isReady := s.isReady } := by
    simp [startNew, onStarted, hf2]
  rw [hstep2]
  refine ⟨mem_setAdd_of_mem tb2 (mem_setAdd_self _ _), mem_setAdd_self _ _, ?_⟩
  rw [List.map_append, List.count_append, List.count_eq_zero.mpr habs]
  simp [Handle.name]

/-- Witness for C10: two distinct handles for `tb1` started on the empty
manager both stay in the handle set beside a single `tb1` model. -/
theorem startNew_duplicate_handles_witness :
    hTb1 ∈ (startNew (.ok hTb1') (startNew (.ok hTb1) sEmpty).1).1.tensorboards ∧
    hTb1' ∈ (startNew (.ok hTb1') (startNew (.ok hTb1) sEmpty).1).1.tensorboards ∧
    (((startNew (.ok hTb1') (startNew (.ok hTb1) sEmpty).1).1.models.map
        Model.name).count hTb1.name = 1) :=
  startNew_duplicate_handles hTb1 hTb1' sEmpty (by decide) (by decide) (by decide)

/-! C5 -/

/-- The signal emissions of one fulfilled refresh pass: none when the
fetched list is deep-equal to the cached one, exactly one otherwise. -/
theorem refreshRunningOk_emits (f : List Model) (s : ManagerState) :
    emitsOf (refreshRunningOk f s).2 =
      if f = s.models then [] else [Event.emit f] := by
  by_cases h : f = s.models
  · simp [refreshRunningOk, h, emitsOf]
  · simp [refreshRunningOk, h, emitsOf, List.filter_append, List.filter_map,
      Event.isEmit, Function.comp]

/-- A refresh pass issues no remote shutdown. -/
theorem refreshRunningOk_no_remote (f : List Model) (s : ManagerState) :
    ∀ ev ∈ (refreshRunningOk f s).2, ev.remoteName? = none := by
  by_cases h : f = s.models
  · simp [refreshRunningOk, h]
  · intro ev hev
    simp [refreshRunningOk, h] at hev
    rcases hev with ⟨a, -, rfl⟩ | rfl <;> rfl

/-- The settle handlers of `shutdownAll` record only disposals: no signal
emission, no remote issuance. -/
theorem shutdownAllSettle_events (remote : String → Except BackendError Unit) :
    ∀ (captured : List Model) (s : ManagerState),
      ∀ ev ∈ (shutdownAllSettle remote captured s).2,
        ev.isEmit = false ∧ ev.remoteName? = none := by
  intro captured
  induction captured with
  | nil =>
      intro s ev hev
      simp [shutdownAllSettle] at hev
  | cons m rest ih =>
      intro s ev hev
      rcases hr : remote m.name with e | u
      · rw [shutdownAllSettle, hr] at hev
        exact ih s ev hev
      · rw [shutdownAllSettle, hr] at hev
        simp at hev
        rcases hev with ⟨a, -, rfl⟩ | hev
        · exact ⟨rfl, rfl⟩
        · exact ih _ ev hev

/-- The full event trace of a `shutdownAll` whose refresh fetch fulfills. -/
theorem shutdownAll_ok_trace (fetched : List Model)
    (remote : String → Except BackendError Unit) (s : ManagerState) :
    (shutdownAll (.ok fetched) remote s).2.1 =
      (if s.models = [] then [] else [Event.emit []]) ++
      (refreshRunningOk fetched
        (if s.models = [] then s else { s with models := [] })).2 ++
      s.models.map (fun m => Event.remoteShutdown m.name) ++
      (shutdownAllSettle remote s.models
        (refreshRunningOk fetched
          (if s.models = [] then s else { s with models := [] })).1).2 := by
  by_cases hm : s.models = []
  · simp [shutdownAll, refreshRunning, hm]
  · have hl : 0 < s.models.length := List.length_pos.mpr hm
    simp [shutdownAll, refreshRunning, hm, hl]

/-- C5 counterexample: with `models = [tb1]`, a backend that still lists
`tb1` at the embedded refresh, and fulfilled per-entry shutdowns,
`shutdownAll` emits twice — the batch event for the cleared list and a
second event from the refresh it runs before issuing the remote shutdowns —
contradicting the claimed single batch event with none thereafter. -/
theorem shutdownAll_second_emit :
    emitsOf (shutdownAll (.ok [mTb1]) (fun _ => .ok ()) sOne).2.1 =
      [Event.emit [], Event.emit [mTb1]] := by
  decide

/-- C5 amended: `shutdownAll` captures the `models` snapshot, clears it and
emits the batch event first when the snapshot was non-empty (none when it
was empty); it then runs a refresh pass against the backend — which emits
one further change event exactly when the fetched list is non-empty, i.e.
differs from the just-cleared `models` — and only then issues exactly one
remote shutdown per captured entry, in order; every change event of the
whole call precedes every remote issuance, and the settle handlers record
only disposals. -/
theorem shutdownAll_batch_then_refresh (fetched : List Model)
    (remote : String → Except BackendError Unit) (s : ManagerState) :
    ((shutdownAll (.ok fetched) remote s).2.1.filterMap Event.remoteName?
        = s.models.map Model.name) ∧
    (s.models ≠ [] →
      (shutdownAll (.ok fetched) remote s).2.1.head? =
        some (Event.emit [])) ∧
    ((emitsOf (shutdownAll (.ok fetched) remote s).2.1).length =
      (if s.models = [] then 0 else 1) + (if fetched = [] then 0 else 1)) ∧
    (∃ pre post, (shutdownAll (.ok fetched) remote s).2.1 = pre ++ post ∧
      (∀ ev ∈ pre, ev.remoteName? = none) ∧
      (∀ ev ∈ post, ev.isEmit = false)) := by
  rw [shutdownAll_ok_trace]
  set s1 := if s.models = [] then s else { s with models := [] } with hs1
  have hs1models : s1.models = [] := by
    by_cases hm : s.models = [] <;> simp [hs1, hm]
  have hrefresh : ∀ ev ∈ (refreshRunningOk fetched s1).2,
      ev.remoteName? = none := refreshRunningOk_no_remote fetched s1
  have hsettle := shutdownAllSettle_events remote s.models
    (refreshRunningOk fetched s1).1
  refine ⟨?_, ?_, ?_, ?_⟩
  · rw [List.filterMap_append, List.filterMap_append, List.filterMap_append]
    rw [List.filterMap_eq_nil_iff.mpr hrefresh,
      List.filterMap_eq_nil_iff.mpr (fun ev hev => (hsettle ev hev).2)]
    have hbatch : (if s.models = [] then ([] : List Event)
        else [Event.emit []]).filterMap Event.remoteName? = [] := by
      by_cases hm : s.models = [] <;> simp [hm, Event.remoteName?]
    rw [hbatch]
    simp only [List.nil_append, List.append_nil, List.filterMap_map]
    exact congrFun (List.filterMap_eq_map Model.name) s.models
  · intro hm
    simp [hm]
  · rw [emitsOf, List.filter_append, List.filter_append, List.filter_append]
    have h1 : (if s.models = [] then ([] : List Event)
        else [Event.emit []]).filter Event.isEmit =
        if s.models = [] then [] else [Event.emit []] := by
      by_cases hm : s.models = [] <;> simp [hm, Event.isEmit]
    have h2 : (s.models.map (fun m =>
        Event.remoteShutdown m.name)).filter Event.isEmit = [] := by
      simp [List.filter_map, Event.isEmit, Function.comp]
    have h3 : ((shutdownAllSettle remote s.models
        (refreshRunningOk fetched s1).1).2).filter Event.isEmit = [] := by
      rw [List.filter_eq_nil_iff]
      exact fun ev hev => by simp [(hsettle ev hev).1]
    rw [h1, h2, h3, ← emitsOf, refreshRunningOk_emits, hs1models]
    by_cases hm : s.models = [] <;> by_cases hf : fetched = [] <;>
      simp [hm, hf]
  · refine ⟨(if s.models = [] then [] else [Event.emit []]) ++
      (refreshRunningOk fetched s1).2,
      s.models.map (fun m => Event.remoteShutdown m.name) ++
        (shutdownAllSettle remote s.models
          (refreshRunningOk fetched s1).1).2, by simp, ?_, ?_⟩
    · intro ev hev
      rcases List.mem_append.mp hev with h | h
      · by_cases hm : s.models = [] <;> simp [hm] at h
        simp [h, Event.remoteName?]
      · exact hrefresh ev h
    · intro ev hev
      rcases List.mem_append.mp hev with h | h
      · obtain ⟨a, -, rfl⟩ := List.mem_map.mp h
        rfl
      · exact (hsettle ev h).1

/-- Witness for the amended C5: the batch event leads the trace in the
concrete two-emission run. -/
theorem shutdownAll_batch_then_refresh_witness :
    (shutdownAll (.ok [mTb1]) (fun _ => .ok ()) sOne).2.1.head? =
      some (Event.emit []) :=
  (shutdownAll_batch_then_refresh [mTb1] (fun _ => .ok ()) sOne).2.1
    (by decide)

/-! C8 -/

/-- Deleting the leftmost occurrence of a pattern that is a prefix drops
exactly that prefix. -/
theorem dropFirstOcc_of_isPrefixOf (pat : List Char) (s : List Char)
    (h : pat.isPrefixOf s) : dropFirstOcc pat s = s.drop pat.length := by
  cases s with
  | nil => simp [dropFirstOcc]
  | cons c rest => simp [dropFirstOcc, h]

/-- C8: on a comma-free directory and a non-empty workspace root, `formatDir`
returns the directory unchanged when the root is not a prefix, the sentinel
when the directory equals the root, and the root-stripped remainder (minus
one leading slash) when the root is a proper prefix; concretely
`formatDir "/home/user/sub"` with root `/home/user` is `"sub"`. -/
theorem formatDir_single_dir (pr dir : List Char)
    (hc : ',' ∉ dir) (hpr : pr ≠ []) :
    (¬ pr.isPrefixOf dir → formatDir (some pr) dir = dir) ∧
    (dir = pr → formatDir (some pr) dir = workspaceRootSentinel) ∧
    (pr.isPrefixOf dir → stripLeadingSlash (dir.drop pr.length) ≠ [] →
      formatDir (some pr) dir = stripLeadingSlash (dir.drop pr.length)) ∧
    formatDir (some "/home/user".data) "/home/user/sub".data = "sub".data := by
  refine ⟨?_, ?_, ?_, by decide⟩
  · intro hnp
    rw [formatDir_eq_base _ _ hc]
    simp [formatDirBase, hnp]
  · rintro rfl
    rw [formatDir_eq_base _ _ hc]
    have hpp : dir.isPrefixOf dir := by
      rw [ List.isPrefixOf_iff_prefix]
    simp [formatDirBase, hpr, hpp, dropFirstOcc_of_isPrefixOf _ _ hpp,
      List.drop_length, stripLeadingSlash]
  · intro hp hne
    rw [formatDir_eq_base _ _ hc]
    simp only [formatDirBase, ne_eq, hpr, not_false_eq_true, hp, and_self,
      if_true, dropFirstOcc_of_isPrefixOf _ _ hp]
    rcases hd : dir.drop pr.length with _ | ⟨c, rest⟩
    · rw [hd] at hne
      exact absurd rfl hne
    · rw [hd] at hne
      rw [if_neg (List.cons_ne_nil c rest), if_neg hne]

/-- Witness for C8: a directory outside the workspace root is unchanged. -/
theorem formatDir_single_dir_witness :
    formatDir (some "/home/user".data) "/other/path".data = "/other/path".data :=
  (formatDir_single_dir "/home/user".data "/other/path".data
    (by decide) (by decide)).1 (by decide)

/-! C9 -/

/-- JS `split`: splitting at the first separator when the head segment is
separator-free. -/
theorem splitOn_append_sep (c : Char) (d rest : List Char) (hd : c ∉ d) :
    (d ++ c :: rest).splitOn c = d :: rest.splitOn c := by
  simp only [List.splitOn]
  exact List.splitOnP_first (fun x => x == c) d
    (fun x hx => by simp only [beq_iff_eq]; exact fun he => hd (he ▸ hx))
    c (beq_self_eq_true c) rest

/-- JS `split`: a separator-free string splits into itself alone. -/
theorem splitOn_of_not_mem (c : Char) (d : List Char) (hd : c ∉ d) :
    d.splitOn c = [d] := by
  simp only [List.splitOn]
  exact List.splitOnP_eq_single (fun x => x == c) d
    (fun x hx => by simp only [beq_iff_eq]; exact fun he => hd (he ▸ hx))

/-- JS `join` of a two-element array. -/
theorem intercalate_pair (sep a b : List Char) :
    List.intercalate sep [a, b] = a ++ sep ++ b := by
  simp [List.intercalate]

/-- C9: on a comma-containing directory, `formatDir` splits at the comma,
formats each comma-free segment — re-attaching the `label:` prefix of a
labelled segment around the formatted path portion — and rejoins with the
comma; concretely, with root `/home/user`,
`formatDir "/home/user/a,label:/home/user/b"` is `"a,label:b"`. -/
theorem formatDir_multi_dir (pr d lbl p : List Char)
    (hd : ',' ∉ d) (hdc : ':' ∉ d)
    (hlbl : ',' ∉ lbl) (hlblc : ':' ∉ lbl)
    (hp : ',' ∉ p) (hpc : ':' ∉ p) :
    formatDir (some pr) (d ++ ',' :: (lbl ++ ':' :: p)) =
      formatDir (some pr) d ++ ',' :: (lbl ++ ':' :: formatDir (some pr) p) ∧
    formatDir (some "/home/user".data) "/home/user/a,label:/home/user/b".data
      = "a,label:b".data := by
  constructor
  · have hmem : ',' ∈ d ++ ',' :: (lbl ++ ':' :: p) := by simp
    have hrest : ',' ∉ lbl ++ ':' :: p := by
      simp only [List.mem_append, List.mem_cons]
      rintro (h | h | h)
      · exact hlbl h
      · exact absurd h (by decide)
      · exact hp h
    have hsplit : (d ++ ',' :: (lbl ++ ':' :: p)).splitOn ',' =
        [d, lbl ++ ':' :: p] := by
      rw [splitOn_append_sep ',' d _ hd, splitOn_of_not_mem ',' _ hrest]
    have hcolon : ':' ∈ lbl ++ ':' :: p := by simp
    have hsplitc : (lbl ++ ':' :: p).splitOn ':' = [lbl, p] := by
      rw [splitOn_append_sep ':' lbl p hlblc, splitOn_of_not_mem ':' p hpc]
    rw [formatDir, if_pos hmem, hsplit]
    simp only [List.map_cons, List.map_nil]
    rw [if_neg (fun h => hdc h), if_pos hcolon, hsplitc]
    simp only [List.headD_cons, List.drop_succ_cons, List.drop_zero]
    rw [intercalate_pair]
    rw [formatDir_eq_base _ _ hd, formatDir_eq_base _ _ hp]
    simp
  · decide

/-- Witness for C9: the general segment-wise shape at the concrete root and
directories of the spec's example. -/
theorem formatDir_multi_dir_witness :
    formatDir (some "/home/user".data)
      ("/home/user/a".data ++ ',' :: ("label".data ++ ':' :: "/home/user/b".data)) =
      formatDir (some "/home/user".data) "/home/user/a".data ++
        ',' :: ("label".data ++ ':' ::
          formatDir (some "/home/user".data) "/home/user/b".data) :=
  (formatDir_multi_dir "/home/user".data "/home/user/a".data "label".data
    "/home/user/b".data (by decide) (by decide) (by decide) (by decide)
    (by decide) (by decide)).1
